import Mathlib

/-!
A shallow embedding of `Trakttv.bundle/Contents/Code/sync/sync_base.py`
(class `SyncBase` and the collaborator contracts it relies on), together
with theorems settling the frozen claims about the task-orchestration
engine: the recursive `run`/`trigger` protocol, the artifact store, the
concurrent fan-out worker `trigger_spawn`, and the status-recording
contract.

Modelling conventions:
* Python values are represented by the inductive `PyVal`; Python `dict`s
  become association lists (`ArtMap`) with first-match lookup and
  in-place overwrite (`setKey`), mirroring unique-key dictionaries.
* `datetime.utcnow()` is a logical clock: a natural number that is read
  and incremented by `tick`.  `reset` only ever touches the clock, so it
  is given the clock component directly; the enclosing `run` threads it
  back into the full system state.
* Exceptions are the `Res` result type (`ok` / `exc`); every function
  returns its updated state alongside the result, so side effects that
  happened before a raise are preserved, as in Python.
* Side effects that the spec talks about (log lines, Manager calls,
  status-record writes) are recorded in an event trace (`Sys.events`,
  newest first).  `logInfo` / `logWarn` events correspond to the
  `log.info` / `log.warn` calls in the source; `getStatusCall` and
  `statusUpdate` mark the call into `Manager.get_status` and the
  status-record write.
* Handler methods (`run_*`) are arbitrary functions from the node's own
  artifact map to a result and an updated artifact map; the engine is
  proved correct for every such handler.
* The concurrent branch of `trigger_run` spawns one worker per function
  behind a counting barrier; the embedding executes the spawned workers
  in list order — one legal interleaving of the concurrency model — with
  each worker's body given exactly by the source's `trigger_spawn`.
* Code of this repository that is not under `src/` (`core.helpers.all`,
  `core.helpers.merge`, the `SyncStatus` record class and the `Manager`)
  is modelled from the spec; each such definition carries a doc comment
  starting with `Modelled from the spec:`.
-/

set_option maxHeartbeats 1000000

namespace Sync

/-- Python-like dynamic values, as stored in artifact maps and returned
by triggered functions. -/
inductive PyVal where
  | none
  | bool (b : Bool)
  | int (n : Int)
  | str (s : String)
  | list (xs : List PyVal)
  | dict (entries : List (String × PyVal))
deriving Repr

/-- Python truthiness (`if not item`): `None`, `False`, `0`, the empty
string, the empty list and the empty dict are falsy; everything else is
truthy. -/
def truthy : PyVal → Bool
  | .none => false
  | .bool b => b
  | .int n => n != 0
  | .str s => !s.isEmpty
  | .list xs => !xs.isEmpty
  | .dict m => !m.isEmpty

/-- An artifact map: the `self.artifacts` dictionary of a node, keyed by
strings. -/
abbrev ArtMap := List (String × PyVal)

/-- Dictionary lookup (`d.get(k)`), first match. -/
def getKey : ArtMap → String → Option PyVal
  | [], _ => Option.none
  | (k1, v) :: rest, k => if k1 = k then some v else getKey rest k

/-- Dictionary write (`d[k] = v`): overwrite the existing entry for `k`
in place, or append a new one. -/
def setKey : ArtMap → String → PyVal → ArtMap
  | [], k, v => [(k, v)]
  | (k1, v1) :: rest, k, v =>
      if k1 = k then (k, v) :: rest else (k1, v1) :: setKey rest k v

/-- Result of a Python call: a value, or a raised exception (carried as
the exception message). -/
inductive Res (α : Type) where
  | ok (a : α)
  | exc (e : String)
deriving Repr, DecidableEq

/-- Exception names used by the embedding. -/
def typeError : String := "TypeError"

def attributeError : String := "AttributeError"

def indexError : String := "IndexError"

def recursionError : String := "RecursionError"

/-- Modelled from the spec: `core.helpers.all` is not under `src/`.  Per
§4.2, a batch of results is successful iff every entry is truthy
(logical AND over the sequence; an empty sequence is vacuously
successful).  It iterates its argument, so a non-iterable raises; `run`
only ever applies it to the list returned by a non-`single` trigger. -/
def pyAll : PyVal → Res Bool
  | .list xs => .ok (xs.all truthy)
  | _ => .exc typeError

/-- SyncBase.retrieve: `artifacts.get(key)` when `single`, else
`artifacts.get(key, [])`. -/
def retrieve (arts : ArtMap) (key : String) (single : Bool) : PyVal :=
  if single then (getKey arts key).getD .none
  else (getKey arts key).getD (.list [])

/-- SyncBase.store: when `single`, overwrite `artifacts[key]`; otherwise
create an empty list under `key` if absent, then `.append(data)` to the
stored value (raising `AttributeError` if that value is not a list). -/
def store (arts : ArtMap) (key : String) (data : PyVal) (single : Bool) :
    Res Unit × ArtMap :=
  if single then (.ok (), setKey arts key data)
  else
    let arts1 := match getKey arts key with
      | Option.none => setKey arts key (.list [])
      | some _ => arts
    match getKey arts1 key with
    | some (.list xs) => (.ok (), setKey arts1 key (.list (xs ++ [data])))
    | _ => (.exc attributeError, arts1)

/-- Modelled from the spec: `core.helpers.merge` is not under `src/`.
Per §4.1, `store_episodes` "merges `{episodes: …}` into a copy of
`show`": the result is a fresh dict holding `b`'s entries overwritten by
`a`'s entries.  Non-dict arguments raise. -/
def merge (a b : PyVal) : Res PyVal :=
  match a, b with
  | .dict ma, .dict mb => .ok (.dict (ma.foldl (fun acc kv => setKey acc kv.1 kv.2) mb))
  | _, _ => .exc typeError

/-- Observable side effects, newest first.  `logInfo` / `logWarn`
correspond to the `log.info` call in `update_status` and the `log.warn`
call in `trigger_spawn`; `getStatusCall` marks a call into
`Manager.get_status`; `statusUpdate` marks the status-record write
performed by `update_status`. -/
inductive Event where
  | getStatusCall (task : String) (sect : Option String)
  | statusUpdate (task : String) (sect : Option String) (success : Bool)
  | logInfo (key : String) (success : Option Bool) (timestamp : Option Nat)
      (elapsed : Option Int)
  | logWarn (msg : String)
deriving Repr, DecidableEq

/-- Modelled from the spec: the descriptor of the currently executing
operation, as returned by `Manager.get_current` (§6); `sect` is
`task.kwargs.get('section')`, which may itself be absent. -/
structure TaskDesc where
  sect : Option String
deriving Repr, DecidableEq

/-- Modelled from the spec: the Status Record (§3), owned by the external
Manager, one per (task key, section) pair, with fields `key`,
`previous_success`, `previous_timestamp`, `previous_elapsed`.  Fields
other than `key` are unset until the first update. -/
structure SyncStatus where
  key : String
  previous_success : Option Bool
  previous_timestamp : Option Nat
  previous_elapsed : Option Int
deriving Repr, DecidableEq

/-- Lookup in the Manager's status table, keyed by (task key, section). -/
def findStatus : List ((String × Option String) × SyncStatus) →
    String × Option String → Option SyncStatus
  | [], _ => Option.none
  | (k, st) :: rest, key => if k = key then some st else findStatus rest key

/-- Overwrite-or-append in the Manager's status table. -/
def putStatus : List ((String × Option String) × SyncStatus) →
    String × Option String → SyncStatus →
    List ((String × Option String) × SyncStatus)
  | [], key, st => [(key, st)]
  | (k, st1) :: rest, key, st =>
      if k = key then (key, st) :: rest else (k, st1) :: putStatus rest key st

/-- Modelled from the spec: the external Manager (§6) supplies
`get_current() -> (currentTaskDescriptor, index)` and
`get_status(task_key, section) -> StatusRecord` (fetch-or-create, with
mutations persisting). -/
structure Manager where
  current : Option TaskDesc
  statuses : List ((String × Option String) × SyncStatus)
deriving Repr, DecidableEq

/-- Modelled from the spec: `Manager.get_status` fetches the record for
the (task key, section) pair, creating a fresh one (fields unset) on
first use (§4.4, §6). -/
def Manager.get_status (m : Manager) (task : String) (sect : Option String) :
    SyncStatus × Manager :=
  match findStatus m.statuses (task, sect) with
  | some st => (st, m)
  | Option.none =>
      let st : SyncStatus := ⟨task, Option.none, Option.none, Option.none⟩
      (st, { m with statuses := putStatus m.statuses (task, sect) st })

/-- The ambient mutable world: the logical clock (for
`datetime.utcnow()`), the shared Manager, and the event trace. -/
structure Sys where
  clock : Nat
  mgr : Manager
  events : List Event
deriving Repr, DecidableEq

/-- Record an observable event. -/
def emit (e : Event) (sys : Sys) : Sys :=
  { sys with events := e :: sys.events }

/-- Read and advance the clock: `datetime.utcnow()`. -/
def tick (sys : Sys) : Nat × Sys :=
  (sys.clock, { sys with clock := sys.clock + 1 })

/-- A run handler (`run_*` method): an arbitrary function of the node's
own artifact map, returning a value or raising, and possibly mutating
the artifacts (via `store` / `retrieve`). -/
abbrev Handler := ArtMap → Res PyVal × ArtMap

/-- A task node: the static attributes declared on a `SyncBase` subclass
(`key`, `task`, `auto_run`, `threaded`, its `run_*` handler methods)
together with the per-run mutable state (`artifacts`, `start_time`) and
the instantiated children, keyed by their `key` (constructed once, in
declaration order). -/
inductive Node where
  | mk (key : String) (task : Option String) (auto_run : Bool)
      (threaded : Bool) (handlers : List (String × Handler))
      (artifacts : ArtMap) (start_time : Option Nat) (children : List Node)

def Node.key : Node → String
  | .mk k _ _ _ _ _ _ _ => k

def Node.task : Node → Option String
  | .mk _ t _ _ _ _ _ _ => t

def Node.auto_run : Node → Bool
  | .mk _ _ a _ _ _ _ _ => a

def Node.threaded : Node → Bool
  | .mk _ _ _ th _ _ _ _ => th

def Node.handlers : Node → List (String × Handler)
  | .mk _ _ _ _ hs _ _ _ => hs

def Node.artifacts : Node → ArtMap
  | .mk _ _ _ _ _ arts _ _ => arts

def Node.start_time : Node → Option Nat
  | .mk _ _ _ _ _ _ st _ => st

def Node.children : Node → List Node
  | .mk _ _ _ _ _ _ _ cs => cs

/-- Replace the node's artifact map (the engine's only mutation of a
node besides `reset` and replacing children after a child batch). -/
def Node.withArtifacts : Node → ArtMap → Node
  | .mk k t a th hs _ st cs, arts => .mk k t a th hs arts st cs

/-- Replace the node's children list. -/
def Node.withChildren : Node → List Node → Node
  | .mk k t a th hs arts st _, cs => .mk k t a th hs arts st cs

/-- The status key of a node: `self.task or self.key`. -/
def Node.taskKey (n : Node) : String := n.task.getD n.key

/-- First child with the given key: `self.children.get(name)`. -/
def findChild : List Node → String → Option Node
  | [], _ => Option.none
  | c :: rest, nm => if c.key = nm then some c else findChild rest nm

/-- SyncBase.child: lookup by key, `None` when absent. -/
def Node.child (n : Node) (nm : String) : Option Node :=
  findChild n.children nm

/-- Lookup of a `run_*` handler by name (`hasattr` / `getattr`). -/
def lookupHandler : List (String × Handler) → String → Option Handler
  | [], _ => Option.none
  | (nm, h) :: rest, k => if nm = k then some h else lookupHandler rest k

mutual

/-- SyncBase.reset: record `start_time = utcnow()`, set `self.artifacts`
to a shallow copy of the optional inherited mapping (`artifacts.copy()
if artifacts else {}`; the truthiness test makes no difference in value,
since copying an empty dict also yields `{}`), then reset every child
with the *same* inherited mapping.  Only the clock component of the
system state is touched, so `reset` receives the clock directly. -/
def reset (n : Node) (arts : Option ArtMap) (clk : Nat) : Node × Nat :=
  match n with
  | .mk k t a th hs _ _ cs =>
      let now := clk
      let self_arts : ArtMap := match arts with
        | some m => m
        | Option.none => []
      let (cs1, clk1) := resetList cs arts (clk + 1)
      (.mk k t a th hs self_arts (some now) cs1, clk1)

/-- The `for child in self.children.itervalues(): child.reset(artifacts)`
loop, in declaration order. -/
def resetList (cs : List Node) (arts : Option ArtMap) (clk : Nat) :
    List Node × Nat :=
  match cs with
  | [] => ([], clk)
  | c :: rest =>
      let (c1, clk1) := reset c arts clk
      let (rest1, clk2) := resetList rest arts clk1
      (c1 :: rest1, clk2)

end

/-- The shape of a function triggered by `trigger_run`: it receives the
mutable context it operates on (the node's artifact map for handlers,
the children list for child runs) and the system state, and returns a
result together with the updated context and system state. -/
abbrev FuncT (σ : Type) := σ → Sys → Res PyVal × σ × Sys

/-- SyncBase.trigger_spawn: the body of one spawned worker, between the
semaphore `acquire` and `release` (the semaphore itself is the
concurrency primitive and has no effect on a worker's data flow):
`try: results.append(func(*args, **kwargs)) except Exception:
log.warn(...)` — an exception is caught at the worker boundary, logged,
and contributes no entry to `results`. -/
def trigger_spawn {σ : Type} (results : List PyVal) (func : FuncT σ)
    (st : σ) (sys : Sys) : List PyVal × σ × Sys :=
  match func st sys with
  | (.ok v, st1, sys1) => (results ++ [v], st1, sys1)
  | (.exc e, st1, sys1) => (results, st1, emit (.logWarn e) sys1)

/-- The threaded fan-out of `trigger_run`: one worker per function,
gated by a completion barrier sized to the batch.  The embedding
executes the workers in list order (one legal interleaving); each
worker's body is exactly `trigger_spawn`. -/
def spawn_all {σ : Type} (funcs : List (String × FuncT σ))
    (results : List PyVal) (st : σ) (sys : Sys) : List PyVal × σ × Sys :=
  match funcs with
  | [] => (results, st, sys)
  | (_, f) :: rest =>
      let (results1, st1, sys1) := trigger_spawn results f st sys
      spawn_all rest results1 st1 sys1

/-- The sequential branch of `trigger_run`:
`results = [func(*args, **kwargs) for (_, func) in funcs]` — invocation
order, fail-fast on a raised exception. -/
def run_seq {σ : Type} (funcs : List (String × FuncT σ)) (st : σ)
    (sys : Sys) : Res (List PyVal) × σ × Sys :=
  match funcs with
  | [] => (.ok [], st, sys)
  | (_, f) :: rest =>
      match f st sys with
      | (.exc e, st1, sys1) => (.exc e, st1, sys1)
      | (.ok v, st1, sys1) =>
          match run_seq rest st1 sys1 with
          | (.exc e, st2, sys2) => (.exc e, st2, sys2)
          | (.ok vs, st2, sys2) => (.ok (v :: vs), st2, sys2)

/-- SyncBase.trigger_run: `if not funcs: return []`; threaded nodes spawn
one worker per function behind a completion barrier and return the
collected `results` list; sequential nodes collect results in
invocation order and return the list, or `results[0]` when `single`. -/
def trigger_run {σ : Type} (threaded : Bool)
    (funcs : List (String × FuncT σ)) (single : Bool) (st : σ)
    (sys : Sys) : Res PyVal × σ × Sys :=
  match funcs with
  | [] => (.ok (.list []), st, sys)
  | _ =>
      if threaded then
        let (results, st1, sys1) := spawn_all funcs [] st sys
        (.ok (.list results), st1, sys1)
      else
        match run_seq funcs st sys with
        | (.exc e, st1, sys1) => (.exc e, st1, sys1)
        | (.ok vs, st1, sys1) =>
            if !single then (.ok (.list vs), st1, sys1)
            else
              match vs with
              | [] => (.exc indexError, st1, sys1)
              | v :: _ => (.ok v, st1, sys1)

/-- SyncBase.trigger: when `funcs` is absent, discover every `run_*`
method the node defines (the handler table, in `dir` order); otherwise
take the given names.  Names without a matching `run_*` method are
silently dropped by the `if hasattr(self, 'run_' + name)` filter.  Each
resolved handler is run against the node's artifact map through
`trigger_run`. -/
def trigger_thunks (n : Node) (funcs : Option (List String)) :
    List (String × FuncT ArtMap) :=
  let names : List String := match funcs with
    | Option.none => n.handlers.map (fun p => p.1)
    | some fs => fs
  let resolved : List (String × Handler) := names.filterMap
    (fun nm => (lookupHandler n.handlers nm).map (fun h => (nm, h)))
  resolved.map
    (fun (p : String × Handler) => (p.1, fun arts s =>
      let (r, arts1) := p.2 arts
      (r, arts1, s)))

/-- SyncBase.trigger, continued: run the resolved handlers against the
node's artifact map through `trigger_run`, writing the final artifact
map back into the node. -/
def trigger (n : Node) (funcs : Option (List String)) (single : Bool)
    (sys : Sys) : Res PyVal × Node × Sys :=
  match trigger_run n.threaded (trigger_thunks n funcs) single
      n.artifacts sys with
  | (r, arts1, sys1) => (r, n.withArtifacts arts1, sys1)

/-- Section defaulting inside `get_status`: an explicit `section` is
used as-is; otherwise the section is read from the current operation's
parameters (`task.kwargs.get('section')`), and the whole lookup is
abandoned (outer `Option.none`) when the Manager reports no current task. -/
def resolve_sect (sect : Option String) (sys : Sys) :
    Option (Option String) :=
  match sect with
  | some s => some (some s)
  | Option.none =>
      match sys.mgr.current with
      | Option.none => Option.none
      | some td => some td.sect

/-- SyncBase.get_status: default the section from
`self.get_current()`; when the Manager reports no current task, return
`None` without calling `manager.get_status`; otherwise fetch-or-create
the record for `(self.task or self.key, section)`. -/
def get_status (taskKey : String) (sect : Option String) (sys : Sys) :
    Option SyncStatus × Sys :=
  match resolve_sect sect sys with
  | Option.none => (Option.none, sys)
  | some s =>
      let sys1 := emit (.getStatusCall taskKey s) sys
      let (st, mgr1) := sys1.mgr.get_status taskKey s
      (some st, { sys1 with mgr := mgr1 })

/-- Modelled from the spec: the `SyncStatus.update` method of the record
class is not under `src/`.  Per §3 and §8, the update overwrites the
record so that afterwards it reflects the new success flag, the run's
start timestamp, and the elapsed duration `end_time - start_time`. -/
def SyncStatus.update (st : SyncStatus) (success : Bool)
    (start : Option Nat) (endt : Nat) : SyncStatus :=
  { st with
    previous_success := some success
    previous_timestamp := start
    previous_elapsed := start.map (fun t => (endt : Int) - (t : Int)) }

/-- SyncBase.update_status: default `end_time` to `utcnow()`; fetch the
record via `get_status` (raising `AttributeError` when that returns
`None`, since `status.update` is then called on `None`); apply
`status.update(success, start_time or self.start_time, end_time)` — the
mutation persists into the Manager's table — and then emit the
`log.info('Task "%s" finished - ...')` line, whose fields are read from
the record *after* the update. -/
def update_status (taskKey : String) (self_start : Option Nat)
    (success : Bool) (end_time : Option Nat) (start_time : Option Nat)
    (sect : Option String) (sys : Sys) : Res Unit × Sys :=
  let (endt, sys0) := match end_time with
    | Option.none => tick sys
    | some t => (t, sys)
  match get_status taskKey sect sys0, resolve_sect sect sys0 with
  | (some st, sys1), some s =>
      let st1 := st.update success (start_time <|> self_start) endt
      let sys2 := { sys1 with
        mgr := { sys1.mgr with
          statuses := putStatus sys1.mgr.statuses (taskKey, s) st1 } }
      let sys3 := emit (.statusUpdate taskKey s success) sys2
      let sys4 := emit
        (.logInfo st1.key st1.previous_success st1.previous_timestamp
          st1.previous_elapsed) sys3
      (.ok (), sys4)
  | _, _ => (.exc attributeError, sys0)

/-- Pair each child with its position (`self.children.items()` with
stable positions for the embedding's in-place updates). -/
def enumFrom (i : Nat) : List Node → List (Nat × Node)
  | [] => []
  | c :: rest => (i, c) :: enumFrom (i + 1) rest

/-- The body of SyncBase.trigger_children, parametrized by the `run`
method bound on each child (`child.run` closes over the child object;
here the recursive `run` at the remaining fuel): build
`(child.key, child.run)` pairs for every child whose `auto_run` is set
(in declaration order) and hand them to the same execution primitive;
each triggered function runs the child at its position in the children
list, threading the updated child back into the list. -/
def children_thunks
    (runf : Node → Option ArtMap → Sys → Res Bool × Node × Sys)
    (n : Node) (inherited : Option ArtMap) :
    List (String × FuncT (List Node)) :=
  let pairs : List (Nat × Node) :=
    (enumFrom 0 n.children).filter (fun p => p.2.auto_run)
  pairs.map
    (fun (p : Nat × Node) => (p.2.key, fun cs s =>
      match cs[p.1]? with
      | Option.none => (.exc indexError, cs, s)
      | some c =>
          match runf c inherited s with
          | (.ok b, c1, s1) => (.ok (.bool b), cs.set p.1 c1, s1)
          | (.exc e, c1, s1) => (.exc e, cs.set p.1 c1, s1)))

/-- The body of SyncBase.trigger_children, continued: hand the child
batch to `trigger_run` over the children list, writing the updated
children back into the node. -/
def trigger_children_go
    (runf : Node → Option ArtMap → Sys → Res Bool × Node × Sys)
    (n : Node) (inherited : Option ArtMap) (single : Bool) (sys : Sys) :
    Res PyVal × Node × Sys :=
  match trigger_run n.threaded (children_thunks runf n inherited)
      single n.children sys with
  | (r, cs1, sys1) => (r, n.withChildren cs1, sys1)

/-- SyncBase.run: `reset` with the inherited artifacts
(`kwargs.get('artifacts')`); trigger the node's own handlers and, if
their conjunction is not truthy, record a failed status and return
`False`; otherwise trigger the `auto_run` children the same way; record
the final verdict and return it.  The fuel argument only bounds the
recursion depth (`RecursionError` at 0); any fuel larger than the tree
depth is enough. -/
def run : Nat → Node → Option ArtMap → Sys → Res Bool × Node × Sys
  | 0, n, _, sys => (.exc recursionError, n, sys)
  | fuel1 + 1, n, inherited, sys =>
      match reset n inherited sys.clock with
      | (n1, clk1) =>
      match trigger n1 Option.none false { sys with clock := clk1 } with
      | (.exc e, n2, sys2) => (.exc e, n2, sys2)
      | (.ok rv, n2, sys2) =>
          match pyAll rv with
          | .exc e => (.exc e, n2, sys2)
          | .ok ok1 =>
              if !ok1 then
                match update_status n2.taskKey n2.start_time false
                    Option.none Option.none Option.none sys2 with
                | (.exc e, sys3) => (.exc e, n2, sys3)
                | (.ok _, sys3) => (.ok false, n2, sys3)
              else
                match trigger_children_go (run fuel1) n2 inherited false sys2 with
                | (.exc e, n3, sys3) => (.exc e, n3, sys3)
                | (.ok rv2, n3, sys3) =>
                    match pyAll rv2 with
                    | .exc e => (.exc e, n3, sys3)
                    | .ok ok2 =>
                        if !ok2 then
                          match update_status n3.taskKey n3.start_time false
                              Option.none Option.none Option.none sys3 with
                          | (.exc e, sys4) => (.exc e, n3, sys4)
                          | (.ok _, sys4) => (.ok false, n3, sys4)
                        else
                          match update_status n3.taskKey n3.start_time true
                              Option.none Option.none Option.none sys3 with
                          | (.exc e, sys4) => (.exc e, n3, sys4)
                          | (.ok _, sys4) => (.ok true, n3, sys4)

/-- SyncBase.trigger_children at a given recursion budget: the child
batch with `child.run` carrying the remaining fuel. -/
def trigger_children (fuel : Nat) (n : Node) (inherited : Option ArtMap)
    (single : Bool) (sys : Sys) : Res PyVal × Node × Sys :=
  trigger_children_go (run fuel) n inherited single sys

/-- The name of the child node `store_episodes` reads from. -/
def episodeName : String := "episode"

/-- The artifact key `store_episodes` merges under. -/
def episodesName : String := "episodes"

/-- SyncBase.store_episodes: with no explicit episode list, read it from
the child named `episode`'s artifacts under `artifact or key` (an absent
`episode` child raises, since `None.artifacts` is an attribute error);
when the list is still absent, return without storing anything;
otherwise store `merge({'episodes': episodes}, show)` under `key`
(multi-valued append, `single` defaulting to false). -/
def store_episodes (n : Node) (key : String) (showVal : PyVal)
    (episodes : Option PyVal) (artifact : Option String) :
    Res Unit × Node :=
  let eps : Res (Option PyVal) := match episodes with
    | some e => .ok (some e)
    | Option.none =>
        match n.child episodeName with
        | Option.none => .exc attributeError
        | some c => .ok (getKey c.artifacts (artifact.getD key))
  match eps with
  | .exc e => (.exc e, n)
  | .ok Option.none => (.ok (), n)
  | .ok (some e) =>
      match merge (.dict [(episodesName, e)]) showVal with
      | .exc er => (.exc er, n)
      | .ok v =>
          match store n.artifacts key v false with
          | (r, arts1) => (r, n.withArtifacts arts1)

/-- A triggered function only prepends events satisfying `P` to the
event trace. -/
def AddsOnly {σ : Type} (P : Event → Prop) (f : FuncT σ) : Prop :=
  ∀ st sys r st1 sys1, f st sys = (r, st1, sys1) →
    ∃ new, sys1.events = new ++ sys.events ∧ ∀ e ∈ new, P e
/-- One system state extends another when it only prepends events. -/
def EvExt (a b : Sys) : Prop := ∃ new, b.events = new ++ a.events
mutual

/-- A node (and, recursively, every node below it) is in just-reset
state with respect to the inherited snapshot `val`: its artifact map
equals the snapshot and its `start_time` has been stamped. -/
def allReset (val : ArtMap) : Node → Prop
  | .mk _ _ _ _ _ arts st cs => arts = val ∧ st.isSome ∧ allResetList val cs

/-- Every node of the list is recursively in just-reset state. -/
def allResetList (val : ArtMap) : List Node → Prop
  | [] => True
  | c :: rest => allReset val c ∧ allResetList val rest

end
/-- Count the status-record writes in a trace. -/
def countStatusUpdates : List Event → Nat
  | [] => 0
  | .statusUpdate _ _ _ :: rest => countStatusUpdates rest + 1
  | _ :: rest => countStatusUpdates rest
/-- A system state with a current task whose kwargs carry section `s`. -/
def sysCur : Sys := ⟨0, ⟨some ⟨some ("s")⟩, []⟩, []⟩

/-- `sysCur` after one clock tick (the state `run`'s reset leaves). -/
def sysCur1 : Sys := ⟨1, ⟨some ⟨some ("s")⟩, []⟩, []⟩
/-- A leaf node with one handler returning `False`. -/
def c1node : Node := .mk ("n") Option.none true false
  [(("h"), fun arts => ((.ok (.bool false) : Res PyVal), arts))]
  [] Option.none []

/-- `c1node` after reset at clock 0. -/
def c1nodeR : Node := .mk ("n") Option.none true false
  [(("h"), fun arts => ((.ok (.bool false) : Res PyVal), arts))]
  [] (some 0) []
/-- A leaf node with no handlers and no children. -/
def c3leaf : Node := .mk ("a") Option.none true false [] [] Option.none []

/-- `c3leaf` after reset at clock 0. -/
def c3leafR : Node := .mk ("a") Option.none true false [] [] (some 0) []

/-- The full system state after `run 1 c3leaf Option.none sysCur`. -/
def c3out : Sys := ⟨2, ⟨some ⟨some ("s")⟩,
  [((("a"), some ("s")), ⟨("a"), some true, some 0, some 1⟩)]⟩,
  [.logInfo ("a") (some true) (some 0) (some 1),
   .statusUpdate ("a") (some ("s")) true,
   .getStatusCall ("a") (some ("s"))]⟩

/-- A sequential node whose only handler raises. -/
def c3raise : Node := .mk ("n") Option.none true false
  [(("h"), fun arts => ((.exc ("boom") : Res PyVal), arts))]
  [] Option.none []

/-- `c3raise` after reset at clock 0. -/
def c3raiseR : Node := .mk ("n") Option.none true false
  [(("h"), fun arts => ((.exc ("boom") : Res PyVal), arts))]
  [] (some 0) []

/-! Basic lemmas about the embedding's building blocks. -/

@[simp]
theorem tick_mgr (sys : Sys) : (tick sys).2.mgr = sys.mgr := rfl

@[simp]
theorem tick_events (sys : Sys) : (tick sys).2.events = sys.events := rfl

@[simp]
theorem tick_fst (sys : Sys) : (tick sys).1 = sys.clock := rfl

@[simp]
theorem emit_mgr (e : Event) (sys : Sys) : (emit e sys).mgr = sys.mgr := rfl

@[simp]
theorem emit_clock (e : Event) (sys : Sys) :
    (emit e sys).clock = sys.clock := rfl

@[simp]
theorem emit_events (e : Event) (sys : Sys) :
    (emit e sys).events = e :: sys.events := rfl

@[simp]
theorem getKey_setKey_same (arts : ArtMap) (k : String) (v : PyVal) :
    getKey (setKey arts k v) k = some v := by
  induction arts with
  | nil => simp [setKey, getKey]
  | cons p rest ih =>
      obtain ⟨k1, v1⟩ := p
      by_cases h : k1 = k <;> simp [setKey, getKey, h, ih]

theorem getKey_setKey_other (arts : ArtMap) (k k1 : String) (v : PyVal)
    (h : k1 ≠ k) : getKey (setKey arts k v) k1 = getKey arts k1 := by
  induction arts with
  | nil => simp [setKey, getKey, Ne.symm h]
  | cons p rest ih =>
      obtain ⟨k2, v2⟩ := p
      by_cases h2 : k2 = k <;> by_cases h3 : k2 = k1 <;>
        simp_all [setKey, getKey]

@[simp]
theorem putStatus_putStatus
    (l : List ((String × Option String) × SyncStatus))
    (key : String × Option String) (a b : SyncStatus) :
    putStatus (putStatus l key a) key b = putStatus l key b := by
  induction l with
  | nil => simp [putStatus]
  | cons p rest ih =>
      obtain ⟨k1, st1⟩ := p
      by_cases h : k1 = key <;> simp [putStatus, h, ih]

@[simp]
theorem findStatus_putStatus_same
    (l : List ((String × Option String) × SyncStatus))
    (key : String × Option String) (a : SyncStatus) :
    findStatus (putStatus l key a) key = some a := by
  induction l with
  | nil => simp [putStatus, findStatus]
  | cons p rest ih =>
      obtain ⟨k1, st1⟩ := p
      by_cases h : k1 = key <;> simp [putStatus, findStatus, h, ih]

@[simp]
theorem Manager.get_status_current (m : Manager) (task : String)
    (sect : Option String) : (m.get_status task sect).2.current = m.current := by
  unfold Manager.get_status
  cases findStatus m.statuses (task, sect) <;> rfl

@[simp]
theorem withArtifacts_key (n : Node) (a : ArtMap) :
    (n.withArtifacts a).key = n.key := by cases n <;> rfl

@[simp]
theorem withArtifacts_task (n : Node) (a : ArtMap) :
    (n.withArtifacts a).task = n.task := by cases n <;> rfl

@[simp]
theorem withArtifacts_artifacts (n : Node) (a : ArtMap) :
    (n.withArtifacts a).artifacts = a := by cases n <;> rfl

@[simp]
theorem withArtifacts_start_time (n : Node) (a : ArtMap) :
    (n.withArtifacts a).start_time = n.start_time := by cases n <;> rfl

@[simp]
theorem withArtifacts_children (n : Node) (a : ArtMap) :
    (n.withArtifacts a).children = n.children := by cases n <;> rfl

@[simp]
theorem withArtifacts_taskKey (n : Node) (a : ArtMap) :
    (n.withArtifacts a).taskKey = n.taskKey := by
  simp [Node.taskKey]

@[simp]
theorem withArtifacts_self (n : Node) : n.withArtifacts n.artifacts = n := by
  cases n <;> rfl

@[simp]
theorem withChildren_taskKey (n : Node) (cs : List Node) :
    (n.withChildren cs).taskKey = n.taskKey := by
  cases n <;> simp [Node.taskKey, Node.withChildren, Node.task, Node.key]

@[simp]
theorem withChildren_start_time (n : Node) (cs : List Node) :
    (n.withChildren cs).start_time = n.start_time := by cases n <;> rfl

@[simp]
theorem withChildren_children (n : Node) (cs : List Node) :
    (n.withChildren cs).children = cs := by cases n <;> rfl

/-- The node returned by `trigger` is the input node with (only) its
artifact map replaced: key, task, children and `start_time` survive. -/
theorem trigger_node_shape (n : Node) (funcs : Option (List String))
    (single : Bool) (sys : Sys) (r : Res PyVal) (n1 : Node) (sys1 : Sys)
    (heq : trigger n funcs single sys = (r, n1, sys1)) :
    ∃ arts1, n1 = n.withArtifacts arts1 := by
  unfold trigger at heq
  rcases ht : trigger_run n.threaded (trigger_thunks n funcs) single
    n.artifacts sys with ⟨r0, artsA, sysA⟩
  rw [ht] at heq
  cases heq
  exact ⟨artsA, rfl⟩

/-! Trace composition: every engine operation only prepends events to
the trace, and the batch primitives add at most the events their
functions add, plus the `log.warn` lines of failed concurrent workers. -/


theorem trigger_spawn_adds {σ : Type} (P : Event → Prop)
    (hw : ∀ m, P (.logWarn m)) (results : List PyVal) (f : FuncT σ)
    (hf : AddsOnly P f) (st : σ) (sys : Sys) (results1 : List PyVal)
    (st1 : σ) (sys1 : Sys)
    (h : trigger_spawn results f st sys = (results1, st1, sys1)) :
    ∃ new, sys1.events = new ++ sys.events ∧ ∀ e ∈ new, P e := by
  unfold trigger_spawn at h
  rcases hf2 : f st sys with ⟨r0, stA, sysA⟩
  obtain ⟨new, hnew, hP⟩ := hf st sys r0 stA sysA hf2
  rw [hf2] at h
  cases r0 with
  | ok v =>
      cases h
      exact ⟨new, hnew, hP⟩
  | exc e =>
      cases h
      refine ⟨.logWarn e :: new, ?_, ?_⟩
      · simp [emit, hnew]
      · intro ev hev
        rcases List.mem_cons.1 hev with h1 | h2
        · rw [h1]; exact hw e
        · exact hP ev h2

theorem spawn_all_adds {σ : Type} (P : Event → Prop)
    (hw : ∀ m, P (.logWarn m)) (funcs : List (String × FuncT σ))
    (h : ∀ p ∈ funcs, AddsOnly P p.2) :
    ∀ (results : List PyVal) (st : σ) (sys : Sys) results1 st1 sys1,
      spawn_all funcs results st sys = (results1, st1, sys1) →
      ∃ new, sys1.events = new ++ sys.events ∧ ∀ e ∈ new, P e := by
  induction funcs with
  | nil =>
      intro results st sys results1 st1 sys1 heq
      unfold spawn_all at heq
      cases heq
      exact ⟨[], rfl, by simp⟩
  | cons p rest ih =>
      intro results st sys results1 st1 sys1 heq
      obtain ⟨nm, f⟩ := p
      unfold spawn_all at heq
      rcases hs : trigger_spawn results f st sys with ⟨resultsA, stA, sysA⟩
      rw [hs] at heq
      obtain ⟨new1, hnew1, hP1⟩ :=
        trigger_spawn_adds P hw results f
          (h (nm, f) (List.mem_cons_self _ _)) st sys resultsA stA sysA hs
      obtain ⟨new2, hnew2, hP2⟩ :=
        ih (fun q hq => h q (List.mem_cons_of_mem _ hq)) resultsA stA sysA
          results1 st1 sys1 heq
      refine ⟨new2 ++ new1, ?_, ?_⟩
      · rw [hnew2, hnew1, List.append_assoc]
      · intro e he
        rcases List.mem_append.1 he with h1 | h2
        · exact hP2 e h1
        · exact hP1 e h2

theorem run_seq_adds {σ : Type} (P : Event → Prop)
    (funcs : List (String × FuncT σ))
    (h : ∀ p ∈ funcs, AddsOnly P p.2) :
    ∀ (st : σ) (sys : Sys) r st1 sys1,
      run_seq funcs st sys = (r, st1, sys1) →
      ∃ new, sys1.events = new ++ sys.events ∧ ∀ e ∈ new, P e := by
  induction funcs with
  | nil =>
      intro st sys r st1 sys1 heq
      unfold run_seq at heq
      cases heq
      exact ⟨[], rfl, by simp⟩
  | cons p rest ih =>
      intro st sys r st1 sys1 heq
      obtain ⟨nm, f⟩ := p
      unfold run_seq at heq
      rcases hf : f st sys with ⟨r0, stA, sysA⟩
      rw [hf] at heq
      obtain ⟨new1, hnew1, hP1⟩ :=
        h (nm, f) (List.mem_cons_self _ _) st sys r0 stA sysA hf
      cases r0 with
      | exc e =>
          cases heq
          exact ⟨new1, hnew1, hP1⟩
      | ok v =>
          have heq2 : (match run_seq rest stA sysA with
              | (Res.exc e, st2, sys2) =>
                  ((Res.exc e : Res (List PyVal)), st2, sys2)
              | (Res.ok vs, st2, sys2) => (Res.ok (v :: vs), st2, sys2)) =
              (r, st1, sys1) := heq
          rcases hrest : run_seq rest stA sysA with ⟨r2, st2, sys2⟩
          rw [hrest] at heq2
          obtain ⟨new2, hnew2, hP2⟩ :=
            ih (fun q hq => h q (List.mem_cons_of_mem _ hq)) stA sysA r2
              st2 sys2 hrest
          have hcomb : ∃ new, sys2.events = new ++ sys.events ∧
              ∀ e ∈ new, P e := by
            refine ⟨new2 ++ new1, ?_, ?_⟩
            · rw [hnew2, hnew1, List.append_assoc]
            · intro e he
              rcases List.mem_append.1 he with h1 | h2
              · exact hP2 e h1
              · exact hP1 e h2
          cases r2 with
          | exc e => cases heq2; exact hcomb
          | ok vs => cases heq2; exact hcomb

theorem trigger_run_adds {σ : Type} (P : Event → Prop)
    (hw : ∀ m, P (.logWarn m)) (threaded : Bool)
    (funcs : List (String × FuncT σ))
    (h : ∀ p ∈ funcs, AddsOnly P p.2) (single : Bool) (st : σ)
    (sys : Sys) (r : Res PyVal) (st1 : σ) (sys1 : Sys)
    (heq : trigger_run threaded funcs single st sys = (r, st1, sys1)) :
    ∃ new, sys1.events = new ++ sys.events ∧ ∀ e ∈ new, P e := by
  unfold trigger_run at heq
  cases funcs with
  | nil =>
      cases heq
      exact ⟨[], rfl, by simp⟩
  | cons p rest =>
      cases threaded with
      | true =>
          rw [if_pos rfl] at heq
          rcases hs : spawn_all (p :: rest) [] st sys with ⟨results, stA, sysA⟩
          rw [hs] at heq
          cases heq
          exact spawn_all_adds P hw (p :: rest) h [] st sys _ _ _ hs
      | false =>
          rw [if_neg Bool.false_ne_true] at heq
          rcases hs : run_seq (p :: rest) st sys with ⟨r0, stA, sysA⟩
          rw [hs] at heq
          obtain ⟨new, hnew, hP⟩ :=
            run_seq_adds P (p :: rest) h st sys r0 stA sysA hs
          cases r0 with
          | exc e => cases heq; exact ⟨new, hnew, hP⟩
          | ok vs =>
              cases single with
              | false => cases heq; exact ⟨new, hnew, hP⟩
              | true =>
                  cases vs with
                  | nil => cases heq; exact ⟨new, hnew, hP⟩
                  | cons v vs2 => cases heq; exact ⟨new, hnew, hP⟩

/-- The handler thunks built by `trigger` leave the system state
untouched: handlers only see the node's artifact map. -/
theorem trigger_thunks_adds (n : Node) (funcs : Option (List String))
    (P : Event → Prop) :
    ∀ p ∈ trigger_thunks n funcs, AddsOnly P p.2 := by
  intro p hp
  unfold trigger_thunks at hp
  simp only [List.mem_map] at hp
  obtain ⟨q, hq, rfl⟩ := hp
  intro st sys r st1 sys1 heq
  rcases hq2 : q.2 st with ⟨r0, arts1⟩
  simp only [hq2] at heq
  cases heq
  exact ⟨[], rfl, by simp⟩

/-- SyncBase.trigger only adds `log.warn` lines (from failed concurrent
workers) to the event trace: handlers cannot touch the trace, and a
sequential trigger adds nothing at all.  In particular a failed handler
batch can never have triggered a child or written a status record. -/
theorem trigger_adds (n : Node) (funcs : Option (List String))
    (single : Bool) (sys : Sys) (r : Res PyVal) (n1 : Node) (sys1 : Sys)
    (heq : trigger n funcs single sys = (r, n1, sys1)) :
    ∃ new, sys1.events = new ++ sys.events ∧
      ∀ e ∈ new, ∃ m, e = .logWarn m := by
  unfold trigger at heq
  rcases ht : trigger_run n.threaded (trigger_thunks n funcs) single
    n.artifacts sys with ⟨r0, arts1, sysA⟩
  rw [ht] at heq
  cases heq
  exact trigger_run_adds (fun e => ∃ m, e = Event.logWarn m)
    (fun m => ⟨m, rfl⟩) n.threaded _
    (trigger_thunks_adds n funcs _) single n.artifacts sys _ _ _ ht


theorem EvExt.rfl {a : Sys} : EvExt a a := ⟨[], by simp⟩

theorem EvExt.trans {a b c : Sys} (h1 : EvExt a b) (h2 : EvExt b c) :
    EvExt a c := by
  obtain ⟨n1, e1⟩ := h1
  obtain ⟨n2, e2⟩ := h2
  exact ⟨n2 ++ n1, by rw [e2, e1, List.append_assoc]⟩

theorem EvExt.clock {sys : Sys} {c : Nat} :
    EvExt sys { sys with clock := c } := ⟨[], by simp⟩

theorem get_status_adds (tk : String) (sect : Option String) (sys : Sys)
    (o : Option SyncStatus) (sys1 : Sys)
    (heq : get_status tk sect sys = (o, sys1)) : EvExt sys sys1 := by
  simp only [get_status] at heq
  split at heq
  · cases heq
    exact EvExt.rfl
  · rename_i s hs
    rcases hm : (emit (.getStatusCall tk s) sys).mgr.get_status tk s with
      ⟨st, mgr1⟩
    rw [hm] at heq
    cases heq
    exact ⟨[.getStatusCall tk s], rfl⟩

theorem update_status_adds (tk : String) (ss : Option Nat) (succ : Bool)
    (et stt : Option Nat) (sect : Option String) (sys : Sys)
    (res : Res Unit) (sys1 : Sys)
    (heq : update_status tk ss succ et stt sect sys = (res, sys1)) :
    EvExt sys sys1 := by
  simp only [update_status] at heq
  have hsys0 : EvExt sys
      (match et with | Option.none => tick sys | some t => (t, sys)).2 := by
    rcases et with _ | t
    · exact EvExt.clock
    · exact EvExt.rfl
  split at heq
  · rename_i st sysA s hga hrs
    cases heq
    refine hsys0.trans ((get_status_adds tk sect _ _ _ hga).trans ?_)
    exact ⟨[_, _], rfl⟩
  · cases heq
    exact hsys0


/-- The child thunks built by `trigger_children` only add events that a
child `run` adds. -/
theorem children_thunks_adds
    (runf : Node → Option ArtMap → Sys → Res Bool × Node × Sys)
    (hrun : ∀ c inh s r c1 s1, runf c inh s = (r, c1, s1) →
      EvExt s s1)
    (n : Node) (inherited : Option ArtMap) :
    ∀ p ∈ children_thunks runf n inherited,
      AddsOnly (fun _ => True) p.2 := by
  intro p hp
  unfold children_thunks at hp
  simp only [List.mem_map] at hp
  obtain ⟨q, hq, rfl⟩ := hp
  intro st sys r st1 sys1 heq
  simp only at heq
  split at heq
  · cases heq
    exact ⟨[], rfl, by simp⟩
  · rename_i c hc
    rcases hr : runf c inherited sys with ⟨rb, c1, s1⟩
    rw [hr] at heq
    obtain ⟨new, hnew⟩ := hrun c inherited sys rb c1 s1 hr
    cases rb with
    | ok b =>
        cases heq
        exact ⟨new, hnew, by simp⟩
    | exc e =>
        cases heq
        exact ⟨new, hnew, by simp⟩

/-- A child batch only prepends events, provided the child `run` does. -/
theorem trigger_children_go_adds
    (runf : Node → Option ArtMap → Sys → Res Bool × Node × Sys)
    (hrun : ∀ c inh s r c1 s1, runf c inh s = (r, c1, s1) → EvExt s s1)
    (n : Node) (inherited : Option ArtMap) (single : Bool) (sys : Sys)
    (r : Res PyVal) (n1 : Node) (sys1 : Sys)
    (heq : trigger_children_go runf n inherited single sys =
      (r, n1, sys1)) : EvExt sys sys1 := by
  unfold trigger_children_go at heq
  rcases ht : trigger_run n.threaded (children_thunks runf n inherited)
    single n.children sys with ⟨r0, cs1, sysA⟩
  rw [ht] at heq
  cases heq
  obtain ⟨new, hnew, -⟩ := trigger_run_adds (fun _ => True)
    (fun _ => trivial) n.threaded _
    (children_thunks_adds runf hrun n inherited) single n.children sys
    _ _ _ ht
  exact ⟨new, hnew⟩

/-- SyncBase.run only prepends events to the trace. -/
theorem run_adds : ∀ (fuel : Nat) (n : Node) (inherited : Option ArtMap)
    (sys : Sys) (r : Res Bool) (n1 : Node) (sys1 : Sys),
    run fuel n inherited sys = (r, n1, sys1) → EvExt sys sys1 := by
  intro fuel
  induction fuel with
  | zero =>
      intro n inherited sys r n1 sys1 heq
      cases heq
      exact EvExt.rfl
  | succ fuel1 ih =>
      intro n inherited sys r n1 sys1 heq
      unfold run at heq
      split at heq
      rename_i nA clkA hres
      have hclk : EvExt sys { sys with clock := clkA } := EvExt.clock
      split at heq
      · rename_i e nB sysB ht
        obtain ⟨new, hnew, -⟩ := trigger_adds _ _ _ _ _ _ _ ht
        cases heq
        exact hclk.trans ⟨new, hnew⟩
      · rename_i rv nB sysB ht
        obtain ⟨newT, hnewT, -⟩ := trigger_adds _ _ _ _ _ _ _ ht
        have hT : EvExt sys sysB := hclk.trans ⟨newT, hnewT⟩
        split at heq
        · rename_i e hall
          cases heq
          exact hT
        · rename_i ok1 hall
          split at heq
          · split at heq
            · rename_i e sysC hupd
              cases heq
              exact hT.trans (update_status_adds _ _ _ _ _ _ _ _ _ hupd)
            · rename_i u sysC hupd
              cases heq
              exact hT.trans (update_status_adds _ _ _ _ _ _ _ _ _ hupd)
          · split at heq
            · rename_i e nC sysC htc
              cases heq
              exact hT.trans (trigger_children_go_adds (run fuel1)
                (fun c inh s rr c1 s1 hh => ih c inh s rr c1 s1 hh)
                _ _ _ _ _ _ _ htc)
            · rename_i rv2 nC sysC htc
              have hC : EvExt sys sysC :=
                hT.trans (trigger_children_go_adds (run fuel1)
                  (fun c inh s rr c1 s1 hh => ih c inh s rr c1 s1 hh)
                  _ _ _ _ _ _ _ htc)
              split at heq
              · rename_i e hall2
                cases heq
                exact hC
              · rename_i ok2 hall2
                split at heq
                · split at heq
                  · rename_i e sysD hupd
                    cases heq
                    exact hC.trans
                      (update_status_adds _ _ _ _ _ _ _ _ _ hupd)
                  · rename_i u sysD hupd
                    cases heq
                    exact hC.trans
                      (update_status_adds _ _ _ _ _ _ _ _ _ hupd)
                · split at heq
                  · rename_i e sysD hupd
                    cases heq
                    exact hC.trans
                      (update_status_adds _ _ _ _ _ _ _ _ _ hupd)
                  · rename_i u sysD hupd
                    cases heq
                    exact hC.trans
                      (update_status_adds _ _ _ _ _ _ _ _ _ hupd)


/-- Inversion for a successful `get_status`: the section resolved, one
`Manager.get_status` call was recorded, and the returned record is the
fetched-or-created one. -/
theorem get_status_some_inv (tk : String) (sect : Option String)
    (sys : Sys) (st : SyncStatus) (sysA : Sys)
    (heq : get_status tk sect sys = (some st, sysA)) :
    ∃ s, resolve_sect sect sys = some s ∧
      sysA.events = .getStatusCall tk s :: sys.events ∧
      sysA.mgr = (sys.mgr.get_status tk s).2 ∧
      st = (sys.mgr.get_status tk s).1 ∧ sysA.clock = sys.clock := by
  simp only [get_status] at heq
  split at heq
  · simp at heq
  · rename_i s hs
    rcases hm : (emit (.getStatusCall tk s) sys).mgr.get_status tk s with
      ⟨st0, mgr1⟩
    rw [hm] at heq
    cases heq
    have hm2 : sys.mgr.get_status tk s = (st0, mgr1) := hm
    exact ⟨s, hs, rfl, by rw [hm2], by rw [hm2], rfl⟩

/-- Inversion for a successful `update_status`: exactly one
`Manager.get_status` call, one status-record write, and one `log.info`
line are appended to the trace, in that order, carrying the recorded
verdict. -/
theorem update_status_ok_inv (tk : String) (ss : Option Nat) (succ : Bool)
    (et stt : Option Nat) (sect : Option String) (sys : Sys) (u : Unit)
    (sys1 : Sys)
    (heq : update_status tk ss succ et stt sect sys = (.ok u, sys1)) :
    ∃ (s : Option String) (st1 : SyncStatus), sys1.events =
      .logInfo st1.key st1.previous_success st1.previous_timestamp
          st1.previous_elapsed
        :: .statusUpdate tk s succ :: .getStatusCall tk s
        :: sys.events := by
  simp only [update_status] at heq
  have hev : ((match et with
      | Option.none => tick sys
      | some t => (t, sys)).2).events = sys.events := by
    rcases et with _ | t <;> rfl
  split at heq
  · rename_i st sysA s hga hrs
    cases heq
    obtain ⟨s2, hs2, hevA, -, -, -⟩ := get_status_some_inv _ _ _ _ _ hga
    have hss : s2 = s := by
      rw [hs2] at hrs
      exact Option.some.inj hrs
    subst hss
    refine ⟨s2, st.update succ (stt <|> ss)
      (match et with | Option.none => tick sys | some t => (t, sys)).1, ?_⟩
    simp [emit, hevA, hev]
  · simp at heq

/-- The exact effect of `update_status(success)` with defaulted end
time, start time and section, when the Manager has a current task: the
clock ticks once for `utcnow`, the record for `(task key, section)` is
overwritten with the new verdict, start time and elapsed duration, and
the three trace events are appended, the `log.info` line carrying the
post-update record fields. -/
theorem update_status_ok (tk : String) (ss : Option Nat) (succ : Bool)
    (sys : Sys) (td : TaskDesc) (hcur : sys.mgr.current = some td) :
    update_status tk ss succ Option.none Option.none Option.none sys =
      (.ok (), ⟨sys.clock + 1,
        ⟨sys.mgr.current,
         putStatus sys.mgr.statuses (tk, td.sect)
           (((sys.mgr.get_status tk td.sect).1).update succ ss
             sys.clock)⟩,
        .logInfo (((sys.mgr.get_status tk td.sect).1).update succ ss
              sys.clock).key
            (((sys.mgr.get_status tk td.sect).1).update succ ss
              sys.clock).previous_success
            (((sys.mgr.get_status tk td.sect).1).update succ ss
              sys.clock).previous_timestamp
            (((sys.mgr.get_status tk td.sect).1).update succ ss
              sys.clock).previous_elapsed
          :: .statusUpdate tk td.sect succ
          :: .getStatusCall tk td.sect :: sys.events⟩) := by
  obtain ⟨clk, mgr, evs⟩ := sys
  obtain ⟨cur, stats⟩ := mgr
  have hcur2 : cur = some td := hcur
  subst hcur2
  simp only [update_status, get_status, resolve_sect, tick, emit,
    Manager.get_status]
  rcases hm : findStatus stats (tk, td.sect) with _ | st0 <;>
    simp [hm, Manager.get_status]


/-- Unfolding equation for `reset` on a constructor node: `start_time`
is the clock at entry, the artifact map becomes the inherited snapshot
(empty when absent), and the children are reset in order with the same
inherited mapping. -/
theorem reset_eq (k : String) (t : Option String) (a th : Bool)
    (hs : List (String × Handler)) (arts0 : ArtMap) (st0 : Option Nat)
    (cs : List Node) (A : Option ArtMap) (clk : Nat) :
    reset (.mk k t a th hs arts0 st0 cs) A clk =
      (.mk k t a th hs (A.getD []) (some clk)
        (resetList cs A (clk + 1)).1,
       (resetList cs A (clk + 1)).2) := by
  rcases A with _ | m <;> rfl

/-- Unfolding equation for `resetList` on a cons cell. -/
theorem resetList_eq (c : Node) (rest : List Node) (A : Option ArtMap)
    (clk : Nat) :
    resetList (c :: rest) A clk =
      ((reset c A clk).1 :: (resetList rest A (reset c A clk).2).1,
       (resetList rest A (reset c A clk).2).2) := rfl


/-- After `reset`, every node of the subtree is in just-reset state:
each one holds its own copy of the same inherited snapshot. -/
theorem reset_allReset_all : ∀ (k : Nat),
    (∀ (n : Node) (A : Option ArtMap) (clk : Nat), sizeOf n ≤ k →
      allReset (A.getD []) (reset n A clk).1) ∧
    (∀ (cs : List Node) (A : Option ArtMap) (clk : Nat), sizeOf cs ≤ k →
      allResetList (A.getD []) (resetList cs A clk).1) := by
  intro k
  induction k with
  | zero =>
      constructor
      · intro n A clk hle
        rcases n with ⟨k1, t, a, th, hs, arts, st, cs⟩
        simp at hle
      · intro cs A clk hle
        rcases cs with _ | ⟨c, rest⟩
        · simp [resetList, allResetList]
        · simp at hle
  | succ k ih =>
      constructor
      · intro n A clk hle
        rcases n with ⟨k1, t, a, th, hs, arts, st, cs⟩
        rw [reset_eq]
        simp only [allReset, Option.isSome_some]
        refine ⟨by simp, by simp, ?_⟩
        have hcs : sizeOf cs ≤ k := by
          simp at hle
          omega
        exact ih.2 cs A (clk + 1) hcs
      · intro cs A clk hle
        rcases cs with _ | ⟨c, rest⟩
        · simp [resetList, allResetList]
        · rw [resetList_eq]
          simp only [allResetList]
          have hc : sizeOf c ≤ k := by
            simp at hle
            omega
          have hrest : sizeOf rest ≤ k := by
            simp at hle
            omega
          exact ⟨ih.1 c A clk hc, ih.2 rest A _ hrest⟩

theorem reset_start_time (n : Node) (A : Option ArtMap) (clk : Nat) :
    (reset n A clk).1.start_time = some clk := by
  rcases n with ⟨k1, t, a, th, hs, arts, st, cs⟩
  rw [reset_eq]
  rfl

theorem reset_artifacts (n : Node) (A : Option ArtMap) (clk : Nat) :
    (reset n A clk).1.artifacts = A.getD [] := by
  rcases n with ⟨k1, t, a, th, hs, arts, st, cs⟩
  rw [reset_eq]
  rfl

theorem reset_children (n : Node) (A : Option ArtMap) (clk : Nat) :
    (reset n A clk).1.children = (resetList n.children A (clk + 1)).1 := by
  rcases n with ⟨k1, t, a, th, hs, arts, st, cs⟩
  rw [reset_eq]
  rfl


/-! The claims. -/

/-- C5: `store(k, v, single=True)` overwrites, so after two single-valued
stores only the latest value is retrievable via `retrieve(k, single=True)`;
`store(k, v, single=False)` appends to an ordered sequence under `k`,
creating it on first use, so after two multi-valued stores `retrieve(k)`
returns exactly `[v1, v2]` in that order; and `retrieve(k, single=False)`
on a never-stored key returns an empty sequence. -/
theorem C5_store_retrieve (arts : ArtMap) (k : String) (v1 v2 : PyVal) :
    (retrieve (store (store arts k v1 true).2 k v2 true).2 k true = v2) ∧
    (getKey arts k = Option.none →
      (store arts k v1 false).1 = .ok () ∧
      (store (store arts k v1 false).2 k v2 false).1 = .ok () ∧
      retrieve (store (store arts k v1 false).2 k v2 false).2 k false =
        .list [v1, v2]) ∧
    (getKey arts k = Option.none → retrieve arts k false = .list []) := by
  refine ⟨?_, ?_, ?_⟩
  · simp [store, retrieve]
  · intro h
    simp [store, retrieve, h]
  · intro h
    simp [retrieve, h]

/-- Witness for C5 at a concrete input: two multi-valued stores on a
fresh map accumulate `[1, 2]` in order, and both single-valued and
empty-key behavior check out. -/
theorem C5_witness :
    (retrieve (store (store [] ("k") (.int 1) true).2 ("k") (.int 2)
        true).2 ("k") true = .int 2) ∧
    (retrieve (store (store [] ("k") (.int 1) false).2 ("k") (.int 2)
        false).2 ("k") false = .list [.int 1, .int 2]) ∧
    retrieve [] ("k") false = .list [] :=
  ⟨(C5_store_retrieve [] ("k") (.int 1) (.int 2)).1,
   ((C5_store_retrieve [] ("k") (.int 1) (.int 2)).2.1 rfl).2.2,
   (C5_store_retrieve [] ("k") (.int 1) (.int 2)).2.2 rfl⟩

/-- C9: `trigger_run` never unwraps its result except in the sequential
non-empty case: on an empty function list it returns an empty list even
when `single=True` (never touching `results[0]`), and a threaded node
always gets the full results list back even when `single=True`. -/
theorem C9_trigger_run_no_unwrap (σ : Type)
    (funcs : List (String × FuncT σ)) (single : Bool) (st : σ)
    (sys : Sys) :
    (funcs = [] →
      ∀ threaded, trigger_run threaded funcs single st sys =
        (.ok (.list []), st, sys)) ∧
    (funcs ≠ [] →
      ∃ rs st1 sys1, trigger_run true funcs single st sys =
        (.ok (.list rs), st1, sys1)) := by
  constructor
  · rintro rfl threaded
    rfl
  · intro hne
    rcases funcs with _ | ⟨p, rest⟩
    · exact absurd rfl hne
    · rcases hs : spawn_all (p :: rest) [] st sys with ⟨results, st1, sys1⟩
      exact ⟨results, st1, sys1, by simp [trigger_run, hs]⟩

/-- Witness for C9 at a concrete input: the empty batch stays a list
under `single=True`, and so does a threaded singleton batch. -/
theorem C9_witness :
    (trigger_run true ([] : List (String × FuncT Unit)) true ()
      ⟨0, ⟨Option.none, []⟩, []⟩ =
      (.ok (.list []), (), ⟨0, ⟨Option.none, []⟩, []⟩)) ∧
    ∃ rs st1 sys1,
      trigger_run true
        [(("f"), fun (u : Unit) s => ((.ok (.bool true) : Res PyVal), u, s))]
        true () ⟨0, ⟨Option.none, []⟩, []⟩ = (.ok (.list rs), st1, sys1) :=
  ⟨(C9_trigger_run_no_unwrap Unit [] true () _).1 rfl true,
   (C9_trigger_run_no_unwrap Unit
     [(("f"), fun (u : Unit) s => ((.ok (.bool true) : Res PyVal), u, s))]
     true () _).2 (by simp)⟩

/-- C2: a single invocation of the worker `trigger_spawn`: when the
triggered function raises, the exception is caught at the worker
boundary, the failure is logged (`log.warn`), and the results sequence
is returned unchanged — no entry, not an explicit `false`; when it
returns a value, exactly that value is appended.  In neither case does
the exception propagate: `trigger_spawn` is total by construction, its
`try/except` handling both outcomes. -/
theorem C2_trigger_spawn (σ : Type) (results : List PyVal)
    (func : FuncT σ) (st : σ) (sys : Sys) :
    (∀ e st1 sys1, func st sys = (.exc e, st1, sys1) →
      trigger_spawn results func st sys =
        (results, st1, emit (.logWarn e) sys1)) ∧
    (∀ v st1 sys1, func st sys = (.ok v, st1, sys1) →
      trigger_spawn results func st sys = (results ++ [v], st1, sys1)) := by
  constructor
  · intro e st1 sys1 h
    simp [trigger_spawn, h]
  · intro v st1 sys1 h
    simp [trigger_spawn, h]

/-- Witness for C2 at a concrete input: a raising worker leaves the
results empty and logs one warning; a returning worker appends its
value. -/
theorem C2_witness :
    (trigger_spawn [] (fun (u : Unit) s => ((.exc ("boom") : Res PyVal), u, s))
      () ⟨0, ⟨Option.none, []⟩, []⟩ =
      ([], (), emit (.logWarn ("boom")) ⟨0, ⟨Option.none, []⟩, []⟩)) ∧
    trigger_spawn [] (fun (u : Unit) s => ((.ok (.bool true) : Res PyVal), u, s))
      () ⟨0, ⟨Option.none, []⟩, []⟩ =
      ([.bool true], (), ⟨0, ⟨Option.none, []⟩, []⟩) :=
  ⟨(C2_trigger_spawn Unit []
      (fun (u : Unit) s => ((.exc ("boom") : Res PyVal), u, s)) ()
      ⟨0, ⟨Option.none, []⟩, []⟩).1 ("boom") () _ rfl,
   (C2_trigger_spawn Unit []
      (fun (u : Unit) s => ((.ok (.bool true) : Res PyVal), u, s)) ()
      ⟨0, ⟨Option.none, []⟩, []⟩).2 (.bool true) () _ rfl⟩

/-- C10: `get_status(section=None)` consults the Manager's `get_current`
to default the section; when the Manager reports no current task it
returns `None` with the system state untouched (in particular it never
calls `manager.get_status` — no `getStatusCall` is recorded and no
record is created) and does not raise; consequently `update_status` in
that state raises an `AttributeError` (calling `.update` on `None`)
instead of recording a status. -/
theorem C10_get_status_no_current (sys : Sys) (tk : String)
    (hcur : sys.mgr.current = Option.none) :
    (get_status tk Option.none sys = (Option.none, sys)) ∧
    (∀ (ss : Option Nat) (succ : Bool) (et stt : Option Nat),
      (update_status tk ss succ et stt Option.none sys).1 =
        .exc attributeError) := by
  obtain ⟨clk, mgr, evs⟩ := sys
  obtain ⟨cur, stats⟩ := mgr
  have hcur2 : cur = Option.none := hcur
  subst hcur2
  constructor
  · simp [get_status, resolve_sect]
  · intro ss succ et stt
    rcases et with _ | t <;>
      simp [update_status, get_status, resolve_sect, tick]

/-- Witness for C10 at a concrete input: with no current task the lookup
returns `None` and leaves the state unchanged, and the subsequent status
update raises. -/
theorem C10_witness :
    (get_status ("t") Option.none ⟨0, ⟨Option.none, []⟩, []⟩ =
      (Option.none, ⟨0, ⟨Option.none, []⟩, []⟩)) ∧
    (update_status ("t") (some 0) true Option.none Option.none
      Option.none ⟨0, ⟨Option.none, []⟩, []⟩).1 = .exc attributeError :=
  ⟨(C10_get_status_no_current ⟨0, ⟨Option.none, []⟩, []⟩ ("t") rfl).1,
   (C10_get_status_no_current ⟨0, ⟨Option.none, []⟩, []⟩ ("t") rfl).2
     (some 0) true Option.none Option.none⟩


/-- A filter keeping exactly the elements on which `f` fires does not
change the result of `filterMap f`. -/
theorem filterMap_filter_isSome {α β : Type} (f : α → Option β)
    (l : List α) :
    (l.filter (fun a => (f a).isSome)).filterMap f = l.filterMap f := by
  induction l with
  | nil => rfl
  | cons a rest ih =>
      cases h : f a <;>
        simp [List.filter_cons, List.filterMap_cons, h, ih]

/-- Counterexample to C7: on a node with no handlers at all, triggering
the missing handler name `missing` does not fail closed — the name is
silently dropped by the `hasattr` filter, the batch is empty, and the
engine's success reduction (`all`) evaluates the empty result list as
vacuously successful, so the enclosing `run` would record success, not
the claimed failure. -/
theorem C7_counterexample :
    trigger (.mk ("n") Option.none true false [] [] Option.none [])
        (some [("missing")]) false ⟨0, ⟨Option.none, []⟩, []⟩ =
      (.ok (.list []),
       .mk ("n") Option.none true false [] [] Option.none [],
       ⟨0, ⟨Option.none, []⟩, []⟩) ∧
    pyAll (.list []) = .ok true := ⟨rfl, rfl⟩

/-- C7 as amended: handler names passed to `trigger` that have no
matching `run_*` method are silently filtered out — the batch behaves
exactly as if only the matching names had been passed — and when every
name is missing the batch is empty and returns `[]`, which the success
reduction treats as vacuous success (so `run` records success rather
than failing closed). -/
theorem C7_missing_handlers_skipped (n : Node) (names : List String)
    (single : Bool) (sys : Sys) :
    (trigger n (some names) single sys =
      trigger n (some (names.filter
        (fun nm => (lookupHandler n.handlers nm).isSome))) single sys) ∧
    ((∀ nm ∈ names, lookupHandler n.handlers nm = Option.none) →
      trigger n (some names) single sys = (.ok (.list []), n, sys)) := by
  constructor
  · have h1 : trigger_thunks n (some (names.filter
        (fun nm => (lookupHandler n.handlers nm).isSome))) =
        trigger_thunks n (some names) := by
      unfold trigger_thunks
      have h2 := filterMap_filter_isSome
        (fun nm => (lookupHandler n.handlers nm).map (fun h => (nm, h)))
        names
      have h3 : (fun nm =>
          ((lookupHandler n.handlers nm).map (fun h => (nm, h))).isSome) =
          (fun nm => (lookupHandler n.handlers nm).isSome) := by
        funext nm
        cases h : lookupHandler n.handlers nm <;> simp [h]
      rw [h3] at h2
      dsimp only
      rw [h2]
    unfold trigger
    rw [h1]
  · intro hmiss
    have hres : names.filterMap
        (fun nm => (lookupHandler n.handlers nm).map (fun h => (nm, h))) =
        [] := by
      rw [List.filterMap_eq_nil_iff]
      intro nm hnm
      simp [hmiss nm hnm]
    unfold trigger trigger_thunks
    simp only [hres, List.map_nil]
    simp [trigger_run]

/-- Witness for C7's amended form at a concrete input: a node with one
handler `w`, triggered with the missing name `foo`, returns the vacuous
empty batch and an unchanged node. -/
theorem C7_witness :
    trigger (.mk ("n") Option.none true false
        [(("w"), fun arts => ((.ok (.bool true) : Res PyVal), arts))]
        [] Option.none [])
      (some [("foo")]) false ⟨0, ⟨Option.none, []⟩, []⟩ =
      (.ok (.list []),
       .mk ("n") Option.none true false
         [(("w"), fun arts => ((.ok (.bool true) : Res PyVal), arts))]
         [] Option.none [],
       ⟨0, ⟨Option.none, []⟩, []⟩) :=
  (C7_missing_handlers_skipped
    (.mk ("n") Option.none true false
      [(("w"), fun arts => ((.ok (.bool true) : Res PyVal), arts))]
      [] Option.none [])
    [("foo")] false ⟨0, ⟨Option.none, []⟩, []⟩).2
    (by
      intro nm hnm
      simp at hnm
      subst hnm
      rfl)

/-- C8: `store_episodes(key, show)` with no explicit episode list reads
it from the child named `episode`'s artifacts under `artifact or key`;
when that is still absent the call is a no-op (the node is unchanged, so
artifacts for `key` stay absent) and no error is raised; otherwise it
stores under `key` the result of merging `{episodes: …}` into a copy of
`show`. -/
theorem C8_store_episodes (n c : Node) (key : String)
    (showEntries : List (String × PyVal)) (artifact : Option String)
    (hchild : n.child episodeName = some c) :
    (getKey c.artifacts (artifact.getD key) = Option.none →
      store_episodes n key (.dict showEntries) Option.none artifact =
        (.ok (), n)) ∧
    (∀ e, getKey c.artifacts (artifact.getD key) = some e →
      store_episodes n key (.dict showEntries) Option.none artifact =
        (match store n.artifacts key
            (.dict (setKey showEntries episodesName e)) false with
         | (r, arts1) => (r, n.withArtifacts arts1))) := by
  constructor
  · intro h
    simp [store_episodes, hchild, h]
  · intro e h
    simp [store_episodes, hchild, h, merge]

/-- Witness for C8 at a concrete input: with an `episode` child holding
an episode list under `shows` only, the call is a no-op for the key
`absent`, and stores the merged dict for the key `shows`. -/
theorem C8_witness :
    (store_episodes
        (.mk ("p") Option.none true false [] [] Option.none
          [.mk ("episode") Option.none true false []
            [(("shows"), .list [.int 5])] Option.none []])
        ("absent") (.dict []) Option.none Option.none =
      (.ok (),
        .mk ("p") Option.none true false [] [] Option.none
          [.mk ("episode") Option.none true false []
            [(("shows"), .list [.int 5])] Option.none []])) ∧
    store_episodes
        (.mk ("p") Option.none true false [] [] Option.none
          [.mk ("episode") Option.none true false []
            [(("shows"), .list [.int 5])] Option.none []])
        ("shows") (.dict []) Option.none Option.none =
      (match store
          (Node.mk ("p") Option.none true false [] [] Option.none
            [.mk ("episode") Option.none true false []
              [(("shows"), .list [.int 5])] Option.none []]).artifacts
          ("shows") (.dict (setKey [] episodesName (.list [.int 5])))
          false with
       | (r, arts1) =>
          (r, (Node.mk ("p") Option.none true false [] [] Option.none
            [.mk ("episode") Option.none true false []
              [(("shows"), .list [.int 5])] Option.none []]).withArtifacts
            arts1)) :=
  ⟨(C8_store_episodes
      (.mk ("p") Option.none true false [] [] Option.none
        [.mk ("episode") Option.none true false []
          [(("shows"), .list [.int 5])] Option.none []])
      (.mk ("episode") Option.none true false []
        [(("shows"), .list [.int 5])] Option.none [])
      ("absent") [] Option.none rfl).1 rfl,
   (C8_store_episodes
      (.mk ("p") Option.none true false [] [] Option.none
        [.mk ("episode") Option.none true false []
          [(("shows"), .list [.int 5])] Option.none []])
      (.mk ("episode") Option.none true false []
        [(("shows"), .list [.int 5])] Option.none [])
      ("shows") [] Option.none rfl).2 (.list [.int 5]) rfl⟩


/-- Counterexample to C6: start from a record whose prior fields are
`success = some true, timestamp = 10, elapsed = 5` and call
`update_status(False, end_time=105, start_time=None, section='s')` on a
node whose `start_time` is 100.  The resulting trace (newest first) has
the `log.info` line *above* the status-record write — i.e. the log was
emitted after the update was applied, not before as the claim states —
and the logged fields are the post-update values
(`success = some false, timestamp = 100, elapsed = 5`), not the
record's pre-update fields (`success = some true, timestamp = 10`). -/
theorem C6_counterexample :
    (update_status ("t") (some 100) false (some 105) Option.none
        (some ("s"))
        ⟨0, ⟨Option.none,
          [((("t"), some ("s")),
            ⟨("t"), some true, some 10, some 5⟩)]⟩, []⟩).2.events =
      [.logInfo ("t") (some false) (some 100) (some 5),
       .statusUpdate ("t") (some ("s")) false,
       .getStatusCall ("t") (some ("s"))] ∧
    (⟨("t"), some true, some 10, some 5⟩ : SyncStatus).previous_success =
      some true ∧
    (some false : Option Bool) ≠ some true := by
  refine ⟨?_, rfl, by decide⟩
  decide

/-- C6 as amended: `update_status` performs its steps in this order: it
fetches-or-creates the Status Record via the Manager, *applies the
update*, and only then emits the log line, whose fields are read from
the record *after* it was overwritten (they carry the current run's
success flag, start timestamp and elapsed duration); after the call
returns, the Manager's record reflects exactly those new values. -/
theorem C6_update_status_order (tk : String) (ss : Option Nat)
    (succ : Bool) (sys : Sys) (td : TaskDesc)
    (hcur : sys.mgr.current = some td) :
    ∃ st1 : SyncStatus,
      st1 = ((sys.mgr.get_status tk td.sect).1).update succ ss
        sys.clock ∧
      update_status tk ss succ Option.none Option.none Option.none sys =
        (.ok (), ⟨sys.clock + 1, ⟨sys.mgr.current,
          putStatus sys.mgr.statuses (tk, td.sect) st1⟩,
          .logInfo st1.key st1.previous_success st1.previous_timestamp
            st1.previous_elapsed
          :: .statusUpdate tk td.sect succ
          :: .getStatusCall tk td.sect :: sys.events⟩) ∧
      st1.previous_success = some succ ∧
      findStatus (putStatus sys.mgr.statuses (tk, td.sect) st1)
        (tk, td.sect) = some st1 := by
  refine ⟨_, rfl, update_status_ok tk ss succ sys td hcur, ?_, ?_⟩
  · simp [SyncStatus.update]
  · simp

/-- Witness for C6's amended form at a concrete input. -/
theorem C6_witness :
    ∃ st1 : SyncStatus,
      st1 = (((⟨7, ⟨some ⟨some ("s")⟩, []⟩, []⟩ : Sys).mgr.get_status
        ("t") (some ("s"))).1).update true (some 3) 7 ∧
      update_status ("t") (some 3) true Option.none Option.none
          Option.none ⟨7, ⟨some ⟨some ("s")⟩, []⟩, []⟩ =
        (.ok (), ⟨8, ⟨(⟨7, ⟨some ⟨some ("s")⟩, []⟩, []⟩ : Sys).mgr.current,
          putStatus (⟨7, ⟨some ⟨some ("s")⟩, []⟩, []⟩ : Sys).mgr.statuses
            (("t"), some ("s")) st1⟩,
          .logInfo st1.key st1.previous_success st1.previous_timestamp
            st1.previous_elapsed
          :: .statusUpdate ("t") (some ("s")) true
          :: .getStatusCall ("t") (some ("s")) :: []⟩) ∧
      st1.previous_success = some true ∧
      findStatus (putStatus
          (⟨7, ⟨some ⟨some ("s")⟩, []⟩, []⟩ : Sys).mgr.statuses
          (("t"), some ("s")) st1) (("t"), some ("s")) = some st1 :=
  C6_update_status_order ("t") (some 3) true
    ⟨7, ⟨some ⟨some ("s")⟩, []⟩, []⟩ ⟨some ("s")⟩ rfl


/-- C4: `reset(A)` records `start_time` as the current time, sets the
node's artifacts to a copy of `A` (the same content in a fresh
container, or an empty mapping when absent), and recursively resets
every child with the same inherited mapping `A` (the whole subtree ends
up in just-reset state over the same snapshot); afterwards
`retrieve(k, single=False)` on a key not in `A` returns an empty
sequence and on a key of `A` returns `A`'s value verbatim (structural
equality).  Container independence, as rendered in the pure model:
replacing one child's artifact container leaves every sibling's
container unchanged (and `A`, an immutable value here, is never written
through). -/
theorem C4_reset (n : Node) (A : Option ArtMap) (clk : Nat)
    (k1 : String) :
    ((reset n A clk).1.start_time = some clk) ∧
    ((reset n A clk).1.artifacts = A.getD []) ∧
    allReset (A.getD []) (reset n A clk).1 ∧
    ((reset n A clk).1.children =
      (resetList n.children A (clk + 1)).1) ∧
    (getKey (A.getD []) k1 = Option.none →
      retrieve (reset n A clk).1.artifacts k1 false = .list []) ∧
    (∀ v, getKey (A.getD []) k1 = some v →
      retrieve (reset n A clk).1.artifacts k1 false = v) ∧
    (∀ (i j : Nat) (newArts : ArtMap), i ≠ j →
      (((reset n A clk).1.children.map Node.artifacts).set i
        newArts)[j]? =
      ((reset n A clk).1.children.map Node.artifacts)[j]?) := by
  refine ⟨reset_start_time n A clk, reset_artifacts n A clk,
    (reset_allReset_all (sizeOf n)).1 n A clk (Nat.le_refl _),
    reset_children n A clk, ?_, ?_, ?_⟩
  · intro h
    simp [retrieve, reset_artifacts, h]
  · intro v h
    simp [retrieve, reset_artifacts, h]
  · intro i j newArts hij
    rw [List.getElem?_set_ne hij]

/-- Witness for C4 at a concrete input: a parent with one child, reset
from the snapshot `{k: 3}`. -/
theorem C4_witness :
    (retrieve (reset
        (.mk ("p") Option.none true false [] [] Option.none
          [.mk ("c") Option.none true false [] [] Option.none []])
        (some [(("k"), .int 3)]) 0).1.artifacts ("k") false = .int 3) ∧
    (retrieve (reset
        (.mk ("p") Option.none true false [] [] Option.none
          [.mk ("c") Option.none true false [] [] Option.none []])
        (some [(("k"), .int 3)]) 0).1.artifacts ("absent") false =
      .list []) ∧
    allReset [(("k"), .int 3)] (reset
        (.mk ("p") Option.none true false [] [] Option.none
          [.mk ("c") Option.none true false [] [] Option.none []])
        (some [(("k"), .int 3)]) 0).1 :=
  ⟨(C4_reset
      (.mk ("p") Option.none true false [] [] Option.none
        [.mk ("c") Option.none true false [] [] Option.none []])
      (some [(("k"), .int 3)]) 0 ("k")).2.2.2.2.2.1 (.int 3) rfl,
   (C4_reset
      (.mk ("p") Option.none true false [] [] Option.none
        [.mk ("c") Option.none true false [] [] Option.none []])
      (some [(("k"), .int 3)]) 0 ("absent")).2.2.2.2.1 rfl,
   (C4_reset
      (.mk ("p") Option.none true false [] [] Option.none
        [.mk ("c") Option.none true false [] [] Option.none []])
      (some [(("k"), .int 3)]) 0 ("k")).2.2.1⟩



/-- C1: `run` first resets the node (recursively, per the reset
contract), then triggers the node's own handlers; if the conjunction of
the handler results is not truthy it records a failed status via
`update_status(False)` and returns `False` without ever triggering any
child — the children stay exactly as the node's own reset left them, and
the only trace events beyond the reset state are the failure's own
status-record write and log line (plus worker warn-lines, which is all a
handler batch can emit); only when the handlers succeed does it trigger
the `auto_run` children (via `trigger_children`), and it records the
final status — `True` iff the children's results are all truthy —
exactly once before returning that verdict. -/
theorem C1_run_protocol (fuel : Nat) (n n1 n2 : Node)
    (inherited : Option ArtMap) (sys sys2 : Sys) (clk1 : Nat)
    (rs : List PyVal) (td : TaskDesc)
    (hres : reset n inherited sys.clock = (n1, clk1))
    (htr : trigger n1 Option.none false { sys with clock := clk1 } =
      (.ok (.list rs), n2, sys2))
    (hcur : sys2.mgr.current = some td) :
    (rs.all truthy = false →
      run (fuel + 1) n inherited sys =
        (.ok false, n2,
         (update_status n2.taskKey n2.start_time false Option.none
           Option.none Option.none sys2).2) ∧
      (update_status n2.taskKey n2.start_time false Option.none
        Option.none Option.none sys2).1 = .ok () ∧
      (∃ (s : Option String) (st1 : SyncStatus),
        (update_status n2.taskKey n2.start_time false Option.none
          Option.none Option.none sys2).2.events =
          .logInfo st1.key st1.previous_success st1.previous_timestamp
              st1.previous_elapsed
            :: .statusUpdate n2.taskKey s false
            :: .getStatusCall n2.taskKey s :: sys2.events) ∧
      n2.children = n1.children ∧
      (∃ warns, sys2.events = warns ++ sys.events ∧
        ∀ e ∈ warns, ∃ m, e = .logWarn m)) ∧
    (rs.all truthy = true →
      ∀ (rs2 : List PyVal) (n3 : Node) (sys3 : Sys) (td3 : TaskDesc),
        trigger_children fuel n2 inherited false sys2 =
          (.ok (.list rs2), n3, sys3) →
        sys3.mgr.current = some td3 →
        run (fuel + 1) n inherited sys =
          (.ok (rs2.all truthy), n3,
           (update_status n3.taskKey n3.start_time (rs2.all truthy)
             Option.none Option.none Option.none sys3).2) ∧
        (∃ (s : Option String) (st1 : SyncStatus),
          (update_status n3.taskKey n3.start_time (rs2.all truthy)
            Option.none Option.none Option.none sys3).2.events =
            .logInfo st1.key st1.previous_success st1.previous_timestamp
                st1.previous_elapsed
              :: .statusUpdate n3.taskKey s (rs2.all truthy)
              :: .getStatusCall n3.taskKey s :: sys3.events)) := by
  constructor
  · intro hall
    have hu := update_status_ok n2.taskKey n2.start_time false sys2 td
      hcur
    refine ⟨?_, ?_, ?_, ?_, ?_⟩
    · rcases hrun : run (fuel + 1) n inherited sys with ⟨r, nf, sysf⟩
      unfold run at hrun
      split at hrun
      rename_i nA clkA hresA
      rw [hres] at hresA
      injection hresA with h1 h2
      subst h1
      subst h2
      split at hrun
      · rename_i e nB sysB htB
        rw [htr] at htB
        simp at htB
      · rename_i rv nB sysB htB
        rw [htr] at htB
        injection htB with hx hy
        injection hy with hy1 hy2
        subst hy1
        subst hy2
        injection hx with hx2
        subst hx2
        split at hrun
        · rename_i e hpa
          simp [pyAll] at hpa
        · rename_i b hpa
          simp only [pyAll, Res.ok.injEq] at hpa
          subst hpa
          rw [hall] at hrun
          rw [Bool.not_false] at hrun
          rw [if_pos rfl] at hrun
          rw [hu] at hrun
          cases hrun
          rw [hu]
    · rw [hu]
    · rw [hu]
      exact update_status_ok_inv _ _ _ _ _ _ _ _ _ hu
    · obtain ⟨arts1, hsh⟩ := trigger_node_shape _ _ _ _ _ _ _ htr
      rw [hsh]
      simp
    · obtain ⟨warns, hw, hP⟩ := trigger_adds _ _ _ _ _ _ _ htr
      exact ⟨warns, hw, hP⟩
  · intro hall rs2 n3 sys3 td3 htc hcur3
    unfold trigger_children at htc
    constructor
    · rcases hrun : run (fuel + 1) n inherited sys with ⟨r, nf, sysf⟩
      unfold run at hrun
      split at hrun
      rename_i nA clkA hresA
      rw [hres] at hresA
      injection hresA with h1 h2
      subst h1
      subst h2
      split at hrun
      · rename_i e nB sysB htB
        rw [htr] at htB
        simp at htB
      · rename_i rv nB sysB htB
        rw [htr] at htB
        injection htB with hx hy
        injection hy with hy1 hy2
        subst hy1
        subst hy2
        injection hx with hx2
        subst hx2
        split at hrun
        · rename_i e hpa
          simp [pyAll] at hpa
        · rename_i b hpa
          simp only [pyAll, Res.ok.injEq] at hpa
          subst hpa
          rw [hall] at hrun
          rw [Bool.not_true] at hrun
          rw [if_neg Bool.false_ne_true] at hrun
          split at hrun
          · rename_i e nC sysC htcB
            rw [htc] at htcB
            simp at htcB
          · rename_i rv2 nC sysC htcB
            rw [htc] at htcB
            injection htcB with hx2 hy2
            injection hy2 with hy21 hy22
            subst hy21
            subst hy22
            injection hx2 with hx22
            subst hx22
            split at hrun
            · rename_i e hpa2
              simp [pyAll] at hpa2
            · rename_i b2 hpa2
              simp only [pyAll, Res.ok.injEq] at hpa2
              subst hpa2
              cases hb2 : List.all rs2 truthy with
              | false =>
                  have hu3 := update_status_ok n3.taskKey n3.start_time
                    false sys3 td3 hcur3
                  rw [hb2] at hrun
                  rw [Bool.not_false] at hrun
                  rw [if_pos rfl] at hrun
                  rw [hu3] at hrun
                  cases hrun
                  rw [hu3]
              | true =>
                  have hu3 := update_status_ok n3.taskKey n3.start_time
                    true sys3 td3 hcur3
                  rw [hb2] at hrun
                  rw [Bool.not_true] at hrun
                  rw [if_neg Bool.false_ne_true] at hrun
                  rw [hu3] at hrun
                  cases hrun
                  rw [hu3]
    · have hu3 := update_status_ok n3.taskKey n3.start_time
        (List.all rs2 truthy) sys3 td3 hcur3
      rw [hu3]
      exact update_status_ok_inv _ _ _ _ _ _ _ _ _ hu3




/-- Witness for C1 at a concrete input: a node whose only handler
returns `False` fails closed through `run`, ending in the failed
`update_status` state. -/
theorem C1_witness :
    run (0 + 1) c1node Option.none sysCur =
      (.ok false, c1nodeR,
       (update_status c1nodeR.taskKey c1nodeR.start_time false
         Option.none Option.none Option.none sysCur1).2) :=
  ((C1_run_protocol 0 c1node c1nodeR c1nodeR Option.none sysCur sysCur1
    1 [.bool false] ⟨some ("s")⟩ rfl rfl rfl).1 rfl).1

/-- Counterexample to C3: a sequential (non-threaded) node whose handler
raises.  The exception escapes `run` itself — `run` returns the raised
error instead of completing — and no Status Record update is produced at
all, contradicting both the no-escape and the exactly-one-update parts
of the claim. -/
theorem C3_counterexample :
    (run 1 (.mk ("n") Option.none true false
        [(("h"), fun arts => ((.exc ("boom") : Res PyVal), arts))]
        [] Option.none [])
      Option.none sysCur).1 = .exc ("boom") ∧
    countStatusUpdates
      (run 1 (.mk ("n") Option.none true false
          [(("h"), fun arts => ((.exc ("boom") : Res PyVal), arts))]
          [] Option.none [])
        Option.none sysCur).2.2.events = 0 := ⟨rfl, rfl⟩

/-- C3 as amended: every `run` that completes normally records exactly
one Status Record update and one informational log line for itself, as
its final three trace events (Manager fetch, record write, `log.info`),
carrying the returned verdict; everything before them only extends the
entry trace.  But when a handler raises in a sequential batch the
exception propagates out of `run` unchanged (fail-fast), and no status
is recorded for that run — at most worker warn-lines were added. -/
theorem C3_run_status_discipline :
    (∀ (fuel : Nat) (n : Node) (inherited : Option ArtMap) (sys : Sys)
        (b : Bool) (n1 : Node) (sys1 : Sys),
      run fuel n inherited sys = (.ok b, n1, sys1) →
      ∃ (s : Option String) (st1 : SyncStatus) (mid : List Event),
        sys1.events =
          .logInfo st1.key st1.previous_success st1.previous_timestamp
              st1.previous_elapsed
            :: .statusUpdate n1.taskKey s b
            :: .getStatusCall n1.taskKey s :: (mid ++ sys.events)) ∧
    (∀ (fuel : Nat) (n n1 n2 : Node) (inherited : Option ArtMap)
        (sys sys2 : Sys) (clk1 : Nat) (e : String),
      reset n inherited sys.clock = (n1, clk1) →
      trigger n1 Option.none false { sys with clock := clk1 } =
        (.exc e, n2, sys2) →
      run (fuel + 1) n inherited sys = (.exc e, n2, sys2) ∧
      (∃ warns, sys2.events = warns ++ sys.events ∧
        ∀ ev ∈ warns, ∃ m, ev = .logWarn m)) := by
  constructor
  · intro fuel n inherited sys b n1 sys1 heq
    cases fuel with
    | zero => simp [run] at heq
    | succ fuel1 =>
        unfold run at heq
        split at heq
        rename_i nA clkA hresA
        split at heq
        · rename_i e nB sysB htB
          simp at heq
        · rename_i rv nB sysB htB
          obtain ⟨mid1, hmid1, -⟩ := trigger_adds _ _ _ _ _ _ _ htB
          have hmid1b : sysB.events = mid1 ++ sys.events := hmid1
          split at heq
          · rename_i e hpa
            simp at heq
          · rename_i bb hpa
            split at heq
            · split at heq
              · rename_i e sysC hupd
                simp at heq
              · rename_i u sysC hupd
                cases heq
                obtain ⟨s, st1, hev⟩ :=
                  update_status_ok_inv _ _ _ _ _ _ _ _ _ hupd
                refine ⟨s, st1, mid1, ?_⟩
                rw [hev, hmid1b]
            · split at heq
              · rename_i e nC sysC htcB
                simp at heq
              · rename_i rv2 nC sysC htcB
                have hmid2 := trigger_children_go_adds (run fuel1)
                  (fun c inh s0 r0 c1 s1 hh =>
                    run_adds fuel1 c inh s0 r0 c1 s1 hh)
                  _ _ _ _ _ _ _ htcB
                obtain ⟨mid2, hmid2e⟩ := hmid2
                split at heq
                · rename_i e hpa2
                  simp at heq
                · rename_i bb2 hpa2
                  split at heq
                  · split at heq
                    · rename_i e sysD hupd
                      simp at heq
                    · rename_i u sysD hupd
                      cases heq
                      obtain ⟨s, st1, hev⟩ :=
                        update_status_ok_inv _ _ _ _ _ _ _ _ _ hupd
                      refine ⟨s, st1, mid2 ++ mid1, ?_⟩
                      rw [hev, hmid2e, hmid1b]
                      simp
                  · split at heq
                    · rename_i e sysD hupd
                      simp at heq
                    · rename_i u sysD hupd
                      cases heq
                      obtain ⟨s, st1, hev⟩ :=
                        update_status_ok_inv _ _ _ _ _ _ _ _ _ hupd
                      refine ⟨s, st1, mid2 ++ mid1, ?_⟩
                      rw [hev, hmid2e, hmid1b]
                      simp
  · intro fuel n n1 n2 inherited sys sys2 clk1 e hres htr
    constructor
    · rcases hrun : run (fuel + 1) n inherited sys with ⟨r, nf, sysf⟩
      unfold run at hrun
      split at hrun
      rename_i nA clkA hresA
      rw [hres] at hresA
      injection hresA with h1 h2
      subst h1
      subst h2
      split at hrun
      · rename_i e2 nB sysB htB
        rw [htr] at htB
        injection htB with hx hy
        injection hy with hy1 hy2
        injection hx with hx2
        subst hx2
        subst hy1
        subst hy2
        cases hrun
        rfl
      · rename_i rv nB sysB htB
        rw [htr] at htB
        simp at htB
    · obtain ⟨warns, hw, hP⟩ := trigger_adds _ _ _ _ _ _ _ htr
      exact ⟨warns, hw, hP⟩



/-- Witness for C3's amended form at concrete inputs: a completing leaf
run ends in the one-update/one-log suffix, and a raising sequential
handler escapes `run` with no status recorded. -/
theorem C3_witness :
    (∃ (s : Option String) (st1 : SyncStatus) (mid : List Event),
      c3out.events =
        .logInfo st1.key st1.previous_success st1.previous_timestamp
            st1.previous_elapsed
          :: .statusUpdate c3leafR.taskKey s true
          :: .getStatusCall c3leafR.taskKey s :: (mid ++ sysCur.events)) ∧
    (run (0 + 1) c3raise Option.none sysCur =
      (.exc ("boom"), c3raiseR, sysCur1) ∧
      (∃ warns, sysCur1.events = warns ++ sysCur.events ∧
        ∀ ev ∈ warns, ∃ m, ev = .logWarn m)) :=
  ⟨C3_run_status_discipline.1 1 c3leaf Option.none sysCur true c3leafR
    c3out rfl,
   C3_run_status_discipline.2 0 c3raise c3raiseR c3raiseR Option.none
    sysCur sysCur1 1 ("boom") rfl rfl⟩

end Sync
